import Mathlib

/-!
# openssh-ldap-pubkey: a shallow embedding of `main.go`

The program looks up the `sshPublicKey` values of one user in an LDAP directory.
Go `string` is embedded as `String`, `int` as `Int`, slices as `List`, a nil pointer or nil
slice result as `Option`.  Library calls whose code is not part of the repository
(`strconv.ParseInt`, `net.ParseIP`, the `ldap.Conn.Search` round trip) are parameters of the
functions that use them; the parts of `flag`, `fmt`, `crypto/tls` and `ldap` that the program
drives are embedded from the behaviour of those packages.

Go compares and slices strings by byte.  Every byte the embedded code inspects (`-`, `=`, `%`)
is ASCII, and an ASCII byte never occurs inside a multi-byte UTF-8 sequence, so scanning the
characters of a `String` visits the same positions.
-/

namespace LdapPubkey

/-! ## Data model (main.go, lines 17-29) -/

/-- The constant `sshPublicKeyName`. -/
def sshPublicKeyName : String := "sshPublicKey"

/-- The struct `ldapEnv`. -/
structure ldapEnv where
  host : String
  port : Int
  base : String
  filter : String
  tls : Bool
  skip : Bool
  uid : String
deriving DecidableEq, Repr

/-! ## Package `flag`, as used by `argparse` -/

/-- The six flags that `argparse` registers on its flag set. -/
inductive FlagName
  | host | port | base | filter | tls | skip
deriving DecidableEq, Repr

/-- The name under which a flag is registered. -/
def FlagName.name : FlagName → String
  | .host => "host"
  | .port => "port"
  | .base => "base"
  | .filter => "filter"
  | .tls => "tls"
  | .skip => "skip"

/-- The flags created with `flags.Bool` need no argument. -/
def FlagName.IsBoolFlag : FlagName → Bool
  | .tls => true
  | .skip => true
  | _ => false

/-- The lookup `f.formal[name]`. -/
def formal (name : String) : Option FlagName :=
  if name = "host" then some .host
  else if name = "port" then some .port
  else if name = "base" then some .base
  else if name = "filter" then some .filter
  else if name = "tls" then some .tls
  else if name = "skip" then some .skip
  else none

/-- The errors of `FlagSet.parseOne`. -/
inductive FlagError
  | badFlag (s : String)
  | help
  | notDefined (name : String)
  | invalidBool (value name : String)
  | invalidBoolFlag (name : String)
  | needsArgument (name : String)
  | invalidValue (value name : String)
deriving DecidableEq, Repr

/-- The function `strconv.ParseBool`; `none` is its syntax error. -/
def ParseBool (str : String) : Option Bool :=
  if str ∈ ["1", "t", "T", "TRUE", "true", "True"] then some true
  else if str ∈ ["0", "f", "F", "FALSE", "false", "False"] then some false
  else none

/-- The flag set built by `argparse`: the six flag variables `h p b f t s` and the
arguments not yet consumed (`f.args`). -/
structure FlagSet where
  h : String
  p : Int
  b : String
  f : String
  t : Bool
  s : Bool
  args : List String
deriving DecidableEq, Repr

/-- The call `flag.Value.Set(value)` on the variable of flag `n`; `none` when the value does
not parse.  `ParseInt` stands for `strconv.ParseInt(s, 0, strconv.IntSize)`. -/
def FlagSet.Set (ParseInt : String → Option Int) (fs : FlagSet) (n : FlagName)
    (value : String) : Option FlagSet :=
  match n with
  | .host => some { fs with h := value }
  | .port => (ParseInt value).map fun v => { fs with p := v }
  | .base => some { fs with b := value }
  | .filter => some { fs with f := value }
  | .tls => (ParseBool value).map fun v => { fs with t := v }
  | .skip => (ParseBool value).map fun v => { fs with s := v }

/-- Splits at the first `=`: the loop `for i := 1; i < len(name); i++` of `parseOne`, run on
the characters after the first one. -/
def cutValue : List Char → Option (List Char × List Char)
  | [] => none
  | c :: cs =>
    if c = '=' then some ([], cs)
    else (cutValue cs).map fun r => (c :: r.1, r.2)

/-- What the first half of `parseOne` makes of one argument. -/
inductive Token
  | nonFlag
  | terminator
  | bad
  | flag (name : String) (hasValue : Bool) (value : String)
deriving DecidableEq, Repr

/-- The first half of `parseOne`: the shape of the argument `s`. -/
def scanFlag (s : List Char) : Token :=
  if s.length < 2 ∨ s.head? ≠ some '-' then .nonFlag
  else
    let numMinuses := if s.get? 1 = some '-' then 2 else 1
    if numMinuses = 2 ∧ s.length = 2 then .terminator
    else
      let name := s.drop numMinuses
      if name.length = 0 ∨ name.head? = some '-' ∨ name.head? = some '=' then .bad
      else
        match cutValue (name.drop 1) with
        | some (pre, post) => .flag (String.mk (name.take 1 ++ pre)) true (String.mk post)
        | none => .flag (String.mk name) false ""

/-- The method `FlagSet.parseOne`: `.ok (seen, fs)` or the error it fails with. -/
def parseOne (ParseInt : String → Option Int) (fs : FlagSet) :
    Except FlagError (Bool × FlagSet) :=
  match fs.args with
  | [] => .ok (false, fs)
  | s :: rest =>
    match scanFlag s.data with
    | .nonFlag => .ok (false, fs)
    | .terminator => .ok (false, { fs with args := rest })
    | .bad => .error (.badFlag s)
    | .flag name hasValue value =>
      let fs := { fs with args := rest }
      match formal name with
      | none =>
        if name = "help" ∨ name = "h" then .error .help
        else .error (.notDefined name)
      | some flag =>
        if flag.IsBoolFlag then
          if hasValue then
            match fs.Set ParseInt flag value with
            | none => .error (.invalidBool value name)
            | some fs => .ok (true, fs)
          else
            match fs.Set ParseInt flag "true" with
            | none => .error (.invalidBoolFlag name)
            | some fs => .ok (true, fs)
        else
          match hasValue, fs.args with
          | true, _ =>
            match fs.Set ParseInt flag value with
            | none => .error (.invalidValue value name)
            | some fs => .ok (true, fs)
          | false, v :: tl =>
            match ({ fs with args := tl } : FlagSet).Set ParseInt flag v with
            | none => .error (.invalidValue v name)
            | some fs => .ok (true, fs)
          | false, [] => .error (.needsArgument name)

/-- The loop of `FlagSet.Parse`, bounded by `fuel` rounds; `none` when the rounds run out.
With `flag.ExitOnError` an error of `parseOne` ends the process. -/
def parseLoop (ParseInt : String → Option Int) : Nat → FlagSet → Option (Except FlagError FlagSet)
  | 0, _ => none
  | fuel + 1, fs =>
    match parseOne ParseInt fs with
    | .ok (true, fs) => parseLoop ParseInt fuel fs
    | .ok (false, fs) => some (.ok fs)
    | .error e => some (.error e)

/-- The method `FlagSet.Parse(arguments)`; every round but the last consumes an argument, so
one round more than there are arguments is enough. -/
def FlagSet.Parse (ParseInt : String → Option Int) (fs : FlagSet) (arguments : List String) :
    Option (Except FlagError FlagSet) :=
  parseLoop ParseInt (arguments.length + 1) { fs with args := arguments }

/-! ## argparse (main.go, lines 31-68) -/

/-- How a call of `argparse` ends. -/
inductive Outcome
  | returned (l : ldapEnv) (err : Option String)
  | exited (cause : FlagError)
  | panicked
  | diverged
deriving DecidableEq, Repr

/-- The flag set after the six definitions of lines 35-41: every flag variable holds the
field of `l` as its default. -/
def ldapEnv.flags (l : ldapEnv) : FlagSet :=
  { h := l.host, p := l.port, b := l.base, f := l.filter, t := l.tls, s := l.skip, args := [] }

/-- Lines 44-61 of `argparse`: each field of `l` that differs from its flag variable is
assigned the variable. -/
def ldapEnv.assign (l : ldapEnv) (flags : FlagSet) : ldapEnv :=
  let l := if l.host ≠ flags.h then { l with host := flags.h } else l
  let l := if l.port ≠ flags.p then { l with port := flags.p } else l
  let l := if l.base ≠ flags.b then { l with base := flags.b } else l
  let l := if l.filter ≠ flags.f then { l with filter := flags.f } else l
  let l := if l.tls ≠ flags.t then { l with tls := flags.t } else l
  let l := if l.skip ≠ flags.s then { l with skip := flags.s } else l
  l

/-- The method `ldapEnv.argparse`.  `osArgs` is `os.Args`.  `returned l err` carries the
receiver as the call leaves it and the returned error; `exited` is the process exit inside
`flags.Parse`; `panicked` is `args[0]` on an empty slice; `diverged` is a parse loop that
ran out of rounds. -/
def ldapEnv.argparse (ParseInt : String → Option Int) (osArgs : List String) (l : ldapEnv)
    (args : List String) : Outcome :=
  let args := if args.length = 0 then osArgs else args
  match args with
  | [] => .panicked
  | _ :: rest =>
    let flags := l.flags
    match flags.Parse ParseInt rest with
    | none => .diverged
    | some (.error e) => .exited e
    | some (.ok flags) =>
      let l := l.assign flags
      match flags.args with
      | [u] => .returned { l with uid := u } none
      | _ => .returned l (some "Specify username")

/-! ## Well-formed command lines -/

/-- The one or two minus signs in front of a flag name. -/
def dashes (dd : Bool) : String := if dd then "--" else "-"

/-- One flag as written on a command line: `-name=value`, `-name value` or `-name`, each
with one minus sign or two. -/
inductive FlagArg
  | inline (dd : Bool) (n : FlagName) (value : String)
  | spaced (dd : Bool) (n : FlagName) (value : String)
  | bare (dd : Bool) (n : FlagName)
deriving DecidableEq, Repr

/-- The flag that is written. -/
def FlagArg.name : FlagArg → FlagName
  | .inline _ n _ => n
  | .spaced _ n _ => n
  | .bare _ n => n

/-- The text of the value that is written; a boolean flag without a value means `true`. -/
def FlagArg.value : FlagArg → String
  | .inline _ _ v => v
  | .spaced _ _ v => v
  | .bare _ _ => "true"

/-- The arguments that a written flag occupies. -/
def FlagArg.render : FlagArg → List String
  | .inline dd n v => [dashes dd ++ n.name ++ "=" ++ v]
  | .spaced dd n v => [dashes dd ++ n.name, v]
  | .bare dd n => [dashes dd ++ n.name]

/-- The arguments of a sequence of written flags. -/
def renderAll : List FlagArg → List String
  | [] => []
  | a :: rest => a.render ++ renderAll rest

/-- The value text `v` is one the type of flag `n` accepts. -/
def accepts (ParseInt : String → Option Int) (n : FlagName) (v : String) : Bool :=
  match n with
  | .port => (ParseInt v).isSome
  | .tls => (ParseBool v).isSome
  | .skip => (ParseBool v).isSome
  | _ => true

/-- A written flag is well formed: its value has the type of the flag, a boolean flag takes
a value only as `-name=value`, any other flag always has one. -/
def FlagArg.WellFormed (ParseInt : String → Option Int) : FlagArg → Bool
  | .inline _ n v => accepts ParseInt n v
  | .spaced _ n v => !n.IsBoolFlag && accepts ParseInt n v
  | .bare _ n => n.IsBoolFlag

/-- An argument that looks like a flag: at least two characters, the first a minus sign. -/
def flagShaped (s : String) : Bool :=
  decide (2 ≤ s.data.length) && decide (s.data.head? = some '-')

/-- The positional arguments `pos` are set off from the flags: by the terminator `--`, or by
a first positional argument that does not look like a flag. -/
def setOff (sep : Bool) (pos : List String) : Bool :=
  sep || match pos with
    | [] => true
    | a :: _ => !flagShaped a

/-- Every written flag of a command line is well formed. -/
def allWellFormed (ParseInt : String → Option Int) (flags : List FlagArg) : Bool :=
  flags.all fun a => a.WellFormed ParseInt

/-- A command line: program name, written flags, the terminator `--` when `sep` is set, and
the positional arguments. -/
def commandLine (prog : String) (flags : List FlagArg) (sep : Bool) (pos : List String) :
    List String :=
  prog :: (renderAll flags ++ ((if sep then ["--"] else []) ++ pos))

/-- The value text that the last written occurrence of flag `n` gives, if there is one. -/
def given (n : FlagName) : List FlagArg → Option String
  | [] => none
  | a :: rest =>
    match given n rest with
    | some v => some v
    | none => if a.name = n then some a.value else none

/-- The configuration that written flags describe over the starting configuration `c`:
each field is the value its flag gives, or stays as in `c` when the flag is not written. -/
def overridden (ParseInt : String → Option Int) (c : ldapEnv) (flags : List FlagArg) : ldapEnv :=
  { host := (given .host flags).getD c.host,
    port := ((given .port flags).bind ParseInt).getD c.port,
    base := (given .base flags).getD c.base,
    filter := (given .filter flags).getD c.filter,
    tls := ((given .tls flags).bind ParseBool).getD c.tls,
    skip := ((given .skip flags).bind ParseBool).getD c.skip,
    uid := c.uid }

/-- A stand-in for `strconv.ParseInt` that reads two common port numbers. -/
def portTable (s : String) : Option Int :=
  if s = "389" then some 389 else if s = "636" then some 636 else none

/-- A configuration as the nslcd file may leave it. -/
def sampleEnv : ldapEnv :=
  { host := "localhost", port := 389, base := "dc=example,dc=org", filter := "(uid=%s)",
    tls := false, skip := false, uid := "" }


/-! ## Transport selection (main.go, lines 70-89) -/

/-- The type `net.IP`: a byte slice, `none` for the nil slice. -/
abbrev IP := Option (List Nat)

/-- The result of a successful `net.ParseIP`: the address in its 16-byte form. -/
structure Addr16 where
  bytes : List Nat
  len : bytes.length = 16

/-- The prefix of an IPv4 address in 16-byte form. -/
def v4InV6Prefix : List Nat := [0, 0, 0, 0, 0, 0, 0, 0, 0, 0, 0xff, 0xff]

/-- The function `net.IPv4`. -/
def IPv4 (a b c d : Nat) : IP := some (v4InV6Prefix ++ [a, b, c, d])

/-- The method `IP.To4`. -/
def To4 (ip : IP) : IP :=
  match ip with
  | none => none
  | some bs =>
    if bs.length = 4 then some bs
    else if bs.length = 16 ∧ (bs.take 10).all (fun x => x == 0) ∧ bs.get? 10 = some 0xff
        ∧ bs.get? 11 = some 0xff then
      some ((bs.drop 12).take 4)
    else none

/-- The method `IP.To16`. -/
def To16 (ip : IP) : IP :=
  match ip with
  | none => none
  | some bs =>
    match bs with
    | [a, b, c, d] => IPv4 a b c d
    | _ => if bs.length = 16 then some bs else none

/-- The function `isAddr`.  `ParseIP` is `net.ParseIP`, which answers nil or 16 bytes. -/
def isAddr (ParseIP : String → Option Addr16) (host : String) : Bool :=
  !(decide (To4 ((ParseIP host).map fun a => a.bytes) = none)
    && decide (To16 ((ParseIP host).map fun a => a.bytes) = none))

/-- The type `x509.CertPool`: the certificates of the pool. -/
structure CertPool where
  certs : List String
deriving DecidableEq, Repr

/-- The function `x509.NewCertPool`: a new, empty pool. -/
def NewCertPool : CertPool := { certs := [] }

/-- The fields of `tls.Config` that `connectTLS` touches.  `RootCAs = none` is the nil
pointer, for which TLS uses the root CA set of the host. -/
structure Config where
  RootCAs : Option CertPool
  InsecureSkipVerify : Bool
deriving DecidableEq, Repr

/-- The arguments of a call of `ldap.DialTLS`. -/
structure DialTLSCall where
  network : String
  addr : String
  config : Config
deriving DecidableEq, Repr

/-- The method `ldapEnv.connectTLS`, up to the call of `ldap.DialTLS` that it returns. -/
def ldapEnv.connectTLS (ParseIP : String → Option Addr16) (l : ldapEnv) : DialTLSCall :=
  let certs := NewCertPool
  let tlsConfig : Config := { RootCAs := some certs, InsecureSkipVerify := false }
  let tlsConfig :=
    if isAddr ParseIP l.host || l.skip then { tlsConfig with InsecureSkipVerify := true }
    else tlsConfig
  { network := "tcp", addr := l.host ++ ":" ++ toString l.port, config := tlsConfig }

/-- A configuration verifies the server certificate against the system trust store: it
verifies at all, and its root CA set is the default of the host. -/
def usesSystemTrust (cfg : Config) : Bool :=
  !cfg.InsecureSkipVerify && cfg.RootCAs.isNone

/-- A configuration that asks for TLS with verification to a server named by host name. -/
def tlsEnv : ldapEnv :=
  { host := "ldap.example.org", port := 636, base := "dc=example,dc=org",
    filter := "(uid=%s)", tls := true, skip := false, uid := "alice" }

/-- A `net.ParseIP` for which no host is a literal address. -/
def noLiteral (_ : String) : Option Addr16 := none

/-! ## Search (main.go, lines 103-110) -/

/-- The type `ldap.EntryAttribute`. -/
structure EntryAttribute where
  Name : String
  Values : List String
deriving DecidableEq, Repr

/-- The type `ldap.Entry`. -/
structure Entry where
  DN : String
  Attributes : List EntryAttribute
deriving DecidableEq, Repr

/-- The type `ldap.SearchRequest`. -/
structure SearchRequest where
  BaseDN : String
  Scope : Int
  DerefAliases : Int
  SizeLimit : Int
  TimeLimit : Int
  TypesOnly : Bool
  Filter : String
  Attributes : List String
  Controls : List String
deriving DecidableEq, Repr

/-- The constant `ldap.ScopeWholeSubtree`. -/
def ScopeWholeSubtree : Int := 2

/-- The constant `ldap.NeverDerefAliases`. -/
def NeverDerefAliases : Int := 0

/-- The function `ldap.NewSearchRequest`. -/
def NewSearchRequest (BaseDN : String) (Scope DerefAliases SizeLimit TimeLimit : Int)
    (TypesOnly : Bool) (Filter : String) (Attributes : List String) (Controls : List String) :
    SearchRequest :=
  { BaseDN := BaseDN, Scope := Scope, DerefAliases := DerefAliases, SizeLimit := SizeLimit,
    TimeLimit := TimeLimit, TypesOnly := TypesOnly, Filter := Filter,
    Attributes := Attributes, Controls := Controls }

/-- The type `ldap.SearchResult`. -/
structure SearchResult where
  Entries : List Entry
  Referrals : List String
  Controls : List String
deriving DecidableEq, Repr

/-- What `fmt` appends for an operand that no verb consumed. -/
def extraOperand : Option (List Char) → List Char
  | none => []
  | some a => "%!(EXTRA string=".data ++ a ++ [')']

/-- The loop of `fmt.Sprintf` for one string operand; the operand is `some a` until a verb
consumes it.  Embedded are plain text, `%%`, and the verbs `%s` and `%v` without flags, width
or precision.  At any other directive the rest of the output is what `other` answers for the
rest of the format: that part of `fmt` is left to the library. -/
def doPrintf (other : List Char → Option (List Char) → List Char) :
    List Char → Option (List Char) → List Char
  | [], arg => extraOperand arg
  | [c], arg =>
    if c ≠ '%' then c :: extraOperand arg
    else "%!(NOVERB)".data ++ extraOperand arg
  | c :: verb :: rest, arg =>
    if c ≠ '%' then c :: doPrintf other (verb :: rest) arg
    else if verb = '%' then '%' :: doPrintf other rest arg
    else if verb = 's' ∨ verb = 'v' then
      match arg with
      | some a => a ++ doPrintf other rest none
      | none => ['%', '!', verb] ++ "(MISSING)".data ++ doPrintf other rest none
    else other (verb :: rest) arg

/-- The call `fmt.Sprintf(format, a)` with one string operand. -/
def Sprintf (other : List Char → Option (List Char) → List Char) (format : String)
    (a : String) : String :=
  String.mk (doPrintf other format.data (some a.data))

/-- The search request that `search` builds (lines 104-107). -/
def ldapEnv.searchRequest (other : List Char → Option (List Char) → List Char)
    (l : ldapEnv) : SearchRequest :=
  NewSearchRequest l.base ScopeWholeSubtree NeverDerefAliases 0 0 false
    (Sprintf other l.filter l.uid) [sshPublicKeyName] []

/-- How a call of `search` ends. -/
inductive SearchOutcome
  | returned (entries : List Entry) (err : Option String)
  | panicked
deriving DecidableEq, Repr

/-- The method `ldapEnv.search`.  `Search` is the method `c.Search` of the connection: it
answers a result pointer (`none` for nil) and an error.  `panicked` is the nil pointer
dereference of `sr.Entries`. -/
def ldapEnv.search (other : List Char → Option (List Char) → List Char) (l : ldapEnv)
    (Search : SearchRequest → Option SearchResult × Option String) : SearchOutcome :=
  let searchRequest := l.searchRequest other
  match Search searchRequest with
  | (some sr, err) => .returned sr.Entries err
  | (none, _) => .panicked

/-- A stand-in for the directives of `fmt` that `doPrintf` leaves to the library. -/
def noDirective (_ : List Char) (_ : Option (List Char)) : List Char := []

/-- A connection whose `Search` fails before any result exists, as `ldap.Conn.Search` does
when the filter does not compile or the request cannot be sent. -/
def failingSearch (_ : SearchRequest) : Option SearchResult × Option String :=
  (none, some "ldap: finished compiling filter with extra at end: )")

/-! ## Output (main.go, lines 112-124) -/

/-- The loop of `Entry.GetAttributeValues`: the values of the first attribute of that name. -/
def attributeValues (attrName : String) : List EntryAttribute → List String
  | [] => []
  | attr :: rest => if attr.Name = attrName then attr.Values else attributeValues attrName rest

/-- The method `Entry.GetAttributeValues`. -/
def Entry.GetAttributeValues (e : Entry) (attrName : String) : List String :=
  attributeValues attrName e.Attributes

/-- The call `fmt.Println(a)` for one string: standard output grows by `a` and a newline. -/
def Println (stdout : String) (a : String) : String := stdout ++ a ++ "\n"

/-- What a call of `printPubkey` leaves: the text written to standard output and the
returned error. -/
structure Printed where
  stdout : String
  err : Option String
deriving DecidableEq, Repr

/-- The function `printPubkey`.  The first pattern is `len(entries) == 1` with `entries[0]`
bound to `e`. -/
def printPubkey (entries : List Entry) : Printed :=
  match entries with
  | [e] =>
    if (e.GetAttributeValues "sshPublicKey").length = 0 then
      { stdout := "", err := some "User does not use ldapPublicKey." }
    else
      { stdout := (e.GetAttributeValues "sshPublicKey").foldl Println "", err := none }
  | _ => { stdout := "", err := some "User does not exist or too many entries returned" }

/-- The values, each followed by a newline, in their order. -/
def keyLines : List String → String
  | [] => ""
  | v :: vs => v ++ "\n" ++ keyLines vs

/-- An entry with the given values of `sshPublicKey`. -/
def userEntry (vs : List String) : Entry :=
  { DN := "uid=alice,ou=people,dc=example,dc=org",
    Attributes := [{ Name := "sshPublicKey", Values := vs }] }

/-! ## Package `flag`: parsing a well-formed command line -/

theorem cutValue_append (nm v : List Char) (h : '=' ∉ nm) :
    cutValue (nm ++ '=' :: v) = some (nm, v) := by
  induction nm with
  | nil => simp [cutValue]
  | cons c cs ih =>
    simp only [List.mem_cons, not_or] at h
    have hc : c ≠ '=' := fun e => h.1 e.symm
    simp [cutValue, hc, ih h.2]

theorem scanFlag_inline (dd : Bool) (n : FlagName) (v : String) :
    scanFlag (dashes dd ++ n.name ++ "=" ++ v).data = .flag n.name true v := by
  cases dd <;> cases n <;> simp [scanFlag, dashes, FlagName.name, cutValue]

theorem scanFlag_plain (dd : Bool) (n : FlagName) :
    scanFlag (dashes dd ++ n.name).data = .flag n.name false "" := by
  cases dd <;> cases n <;> decide

theorem scanFlag_terminator : scanFlag ['-', '-'] = .terminator := by decide

theorem scanFlag_nonFlag (s : String) (h : flagShaped s = false) :
    scanFlag s.data = .nonFlag := by
  unfold flagShaped at h
  unfold scanFlag
  simp only [Bool.and_eq_false_iff, decide_eq_false_iff_not, not_le] at h
  rw [if_pos]
  rcases h with h | h
  · exact Or.inl h
  · exact Or.inr h

theorem formal_name (n : FlagName) : formal n.name = some n := by
  cases n <;> decide

theorem accepts_set (ParseInt : String → Option Int) (fs : FlagSet) (n : FlagName) (v : String)
    (h : accepts ParseInt n v = true) : ∃ fs1, fs.Set ParseInt n v = some fs1 := by
  cases n
  case port =>
    cases hp : ParseInt v with
    | none => simp [accepts, hp] at h
    | some a => exact ⟨{ fs with p := a }, by simp [FlagSet.Set, hp]⟩
  case tls =>
    cases hp : ParseBool v with
    | none => simp [accepts, hp] at h
    | some a => exact ⟨{ fs with t := a }, by simp [FlagSet.Set, hp]⟩
  case skip =>
    cases hp : ParseBool v with
    | none => simp [accepts, hp] at h
    | some a => exact ⟨{ fs with s := a }, by simp [FlagSet.Set, hp]⟩
  all_goals exact ⟨_, rfl⟩

theorem parseOne_inline (ParseInt : String → Option Int) (fs : FlagSet) (dd : Bool)
    (n : FlagName) (v : String) (rest : List String) (fs1 : FlagSet)
    (h : ({ fs with args := rest } : FlagSet).Set ParseInt n v = some fs1) :
    parseOne ParseInt { fs with args := (FlagArg.inline dd n v).render ++ rest }
      = .ok (true, fs1) := by
  simp only [parseOne, FlagArg.render, List.cons_append, List.nil_append, scanFlag_inline,
    formal_name]
  cases hb : n.IsBoolFlag <;> simp [h]

theorem parseOne_spaced (ParseInt : String → Option Int) (fs : FlagSet) (dd : Bool)
    (n : FlagName) (v : String) (rest : List String) (fs1 : FlagSet)
    (hb : n.IsBoolFlag = false)
    (h : ({ fs with args := rest } : FlagSet).Set ParseInt n v = some fs1) :
    parseOne ParseInt { fs with args := (FlagArg.spaced dd n v).render ++ rest }
      = .ok (true, fs1) := by
  simp only [parseOne, FlagArg.render, List.cons_append, List.nil_append, scanFlag_plain,
    formal_name]
  simp [hb, h]

theorem parseOne_bare (ParseInt : String → Option Int) (fs : FlagSet) (dd : Bool)
    (n : FlagName) (rest : List String) (fs1 : FlagSet)
    (hb : n.IsBoolFlag = true)
    (h : ({ fs with args := rest } : FlagSet).Set ParseInt n "true" = some fs1) :
    parseOne ParseInt { fs with args := (FlagArg.bare dd n).render ++ rest }
      = .ok (true, fs1) := by
  simp only [parseOne, FlagArg.render, List.cons_append, List.nil_append, scanFlag_plain,
    formal_name]
  simp [hb, h]

theorem parseOne_wellFormed (ParseInt : String → Option Int) (a : FlagArg)
    (hwf : a.WellFormed ParseInt = true) (fs : FlagSet) (rest : List String)
    (hargs : fs.args = a.render ++ rest) :
    ∃ fs1, parseOne ParseInt fs = .ok (true, fs1) ∧
      ({ fs with args := rest } : FlagSet).Set ParseInt a.name a.value = some fs1 := by
  have hfs : fs = { fs with args := a.render ++ rest } := by
    cases fs; simp only [FlagSet.mk.injEq, true_and]; exact hargs
  cases a with
  | inline dd n v =>
    obtain ⟨fs1, h1⟩ := accepts_set ParseInt { fs with args := rest } n v hwf
    exact ⟨fs1, by rw [hfs]; exact parseOne_inline ParseInt fs dd n v rest fs1 h1, h1⟩
  | spaced dd n v =>
    simp only [FlagArg.WellFormed, Bool.and_eq_true, Bool.not_eq_true'] at hwf
    obtain ⟨fs1, h1⟩ := accepts_set ParseInt { fs with args := rest } n v hwf.2
    exact ⟨fs1, by rw [hfs]; exact parseOne_spaced ParseInt fs dd n v rest fs1 hwf.1 h1, h1⟩
  | bare dd n =>
    simp only [FlagArg.WellFormed] at hwf
    have hacc : accepts ParseInt n "true" = true := by
      cases n <;> first | rfl | (simp [FlagName.IsBoolFlag] at hwf)
    obtain ⟨fs1, h1⟩ := accepts_set ParseInt { fs with args := rest } n "true" hacc
    exact ⟨fs1, by rw [hfs]; exact parseOne_bare ParseInt fs dd n rest fs1 hwf h1, h1⟩

theorem parseOne_setOff (ParseInt : String → Option Int) (fs : FlagSet) (sep : Bool)
    (pos : List String) (hso : setOff sep pos = true)
    (hargs : fs.args = (if sep then ["--"] else []) ++ pos) :
    parseOne ParseInt fs = .ok (false, { fs with args := pos }) := by
  cases sep with
  | true =>
    simp only [if_true, List.cons_append, List.nil_append] at hargs
    simp only [parseOne, hargs, scanFlag_terminator]
  | false =>
    simp only [Bool.false_eq_true, if_false, List.nil_append] at hargs
    have hfs : fs = { fs with args := pos } := by
      cases fs; simp only [FlagSet.mk.injEq, true_and]; exact hargs
    cases pos with
    | nil => rw [← hfs]; simp only [parseOne, hargs]
    | cons a tl =>
      have hns : flagShaped a = false := by simpa [setOff] using hso
      rw [← hfs]
      simp only [parseOne, hargs, scanFlag_nonFlag a hns]

theorem Set_eq (ParseInt : String → Option Int) (fs fs1 : FlagSet) (n : FlagName) (v : String)
    (h : fs.Set ParseInt n v = some fs1) :
    fs1 =
      { h := if n = .host then v else fs.h,
        p := if n = .port then (ParseInt v).getD fs.p else fs.p,
        b := if n = .base then v else fs.b,
        f := if n = .filter then v else fs.f,
        t := if n = .tls then (ParseBool v).getD fs.t else fs.t,
        s := if n = .skip then (ParseBool v).getD fs.s else fs.s,
        args := fs.args } := by
  cases n
  case port =>
    cases hp : ParseInt v with
    | none => simp [FlagSet.Set, hp] at h
    | some a => simp [FlagSet.Set, hp] at h; simp [← h]
  case tls =>
    cases hp : ParseBool v with
    | none => simp [FlagSet.Set, hp] at h
    | some a => simp [FlagSet.Set, hp] at h; simp [← h]
  case skip =>
    cases hp : ParseBool v with
    | none => simp [FlagSet.Set, hp] at h
    | some a => simp [FlagSet.Set, hp] at h; simp [← h]
  all_goals (simp [FlagSet.Set] at h; simp [← h])

theorem given_mem (n : FlagName) (flags : List FlagArg) (x : String)
    (h : given n flags = some x) : ∃ b ∈ flags, b.name = n ∧ b.value = x := by
  induction flags with
  | nil => simp [given] at h
  | cons a rest ih =>
    simp only [given] at h
    cases hr : given n rest with
    | some y =>
      rw [hr] at h
      simp only [Option.some.injEq] at h
      obtain ⟨b, hb, hn, hv⟩ := ih (h ▸ hr)
      exact ⟨b, List.mem_cons_of_mem _ hb, hn, hv⟩
    | none =>
      rw [hr] at h
      by_cases hn : a.name = n
      · simp only [hn, if_true, Option.some.injEq] at h
        exact ⟨a, List.mem_cons_self _ _, hn, h⟩
      · simp [hn] at h

theorem given_cons_getD (n : FlagName) (a : FlagArg) (rest : List FlagArg) (d : String) :
    (given n (a :: rest)).getD d = (given n rest).getD (if a.name = n then a.value else d) := by
  simp only [given]
  cases given n rest with
  | some y => rfl
  | none => by_cases hn : a.name = n <;> simp [hn]

theorem given_cons_bind_getD {α : Type} (P : String → Option α) (n : FlagName) (a : FlagArg)
    (rest : List FlagArg) (d : α)
    (hok : ∀ b ∈ rest, b.name = n → (P b.value).isSome = true) :
    ((given n (a :: rest)).bind P).getD d
      = ((given n rest).bind P).getD (if a.name = n then (P a.value).getD d else d) := by
  simp only [given]
  cases hr : given n rest with
  | some y =>
    obtain ⟨b, hb, hn, hv⟩ := given_mem n rest y hr
    have := hok b hb hn
    rw [hv] at this
    obtain ⟨z, hz⟩ := Option.isSome_iff_exists.mp this
    simp [hz]
  | none => by_cases hn : a.name = n <;> simp [hn]

theorem wellFormed_accepts (ParseInt : String → Option Int) (a : FlagArg)
    (h : a.WellFormed ParseInt = true) : accepts ParseInt a.name a.value = true := by
  cases a with
  | inline dd n v => exact h
  | spaced dd n v =>
    simp only [FlagArg.WellFormed, Bool.and_eq_true] at h
    exact h.2
  | bare dd n =>
    simp only [FlagArg.WellFormed] at h
    cases n <;> first | rfl | (simp [FlagName.IsBoolFlag] at h)

theorem parseLoop_wellFormed (ParseInt : String → Option Int) (sep : Bool) (pos : List String)
    (hso : setOff sep pos = true) (flags : List FlagArg)
    (hwf : ∀ a ∈ flags, a.WellFormed ParseInt = true) :
    ∀ (fs : FlagSet) (fuel : Nat),
      fs.args = renderAll flags ++ ((if sep then ["--"] else []) ++ pos) →
      flags.length + 1 ≤ fuel →
      parseLoop ParseInt fuel fs = some (.ok
        { h := (given .host flags).getD fs.h,
          p := ((given .port flags).bind ParseInt).getD fs.p,
          b := (given .base flags).getD fs.b,
          f := (given .filter flags).getD fs.f,
          t := ((given .tls flags).bind ParseBool).getD fs.t,
          s := ((given .skip flags).bind ParseBool).getD fs.s,
          args := pos }) := by
  induction flags with
  | nil =>
    intro fs fuel hargs hfuel
    obtain ⟨k, rfl⟩ : ∃ k, fuel = k + 1 := ⟨fuel - 1, by omega⟩
    simp only [renderAll, List.nil_append] at hargs
    simp [parseLoop, parseOne_setOff ParseInt fs sep pos hso hargs, given]
  | cons a rest ih =>
    intro fs fuel hargs hfuel
    obtain ⟨k, rfl⟩ : ∃ k, fuel = k + 1 := ⟨fuel - 1, by omega⟩
    simp only [renderAll, List.append_assoc] at hargs
    have hwa := hwf a (List.mem_cons_self _ _)
    have hwr : ∀ b ∈ rest, b.WellFormed ParseInt = true :=
      fun b hb => hwf b (List.mem_cons_of_mem _ hb)
    obtain ⟨fs1, h1, h2⟩ := parseOne_wellFormed ParseInt a hwa fs _ hargs
    have h3 := Set_eq ParseInt _ fs1 a.name a.value h2
    have hlen : rest.length + 1 ≤ k := by simp only [List.length_cons] at hfuel; omega
    have hargs1 : fs1.args = renderAll rest ++ ((if sep then ["--"] else []) ++ pos) := by
      rw [h3]
    have hp : ∀ b ∈ rest, b.name = .port → (ParseInt b.value).isSome = true := by
      intro b hb hn
      have := wellFormed_accepts ParseInt b (hwr b hb)
      rw [hn] at this; exact this
    have ht : ∀ b ∈ rest, b.name = .tls → (ParseBool b.value).isSome = true := by
      intro b hb hn
      have := wellFormed_accepts ParseInt b (hwr b hb)
      rw [hn] at this; exact this
    have hs : ∀ b ∈ rest, b.name = .skip → (ParseBool b.value).isSome = true := by
      intro b hb hn
      have := wellFormed_accepts ParseInt b (hwr b hb)
      rw [hn] at this; exact this
    simp only [parseLoop, h1]
    rw [ih hwr fs1 k hargs1 hlen]
    rw [given_cons_getD, given_cons_getD, given_cons_getD,
      given_cons_bind_getD ParseInt .port a rest fs.p hp,
      given_cons_bind_getD ParseBool .tls a rest fs.t ht,
      given_cons_bind_getD ParseBool .skip a rest fs.s hs]
    rw [h3]

theorem Set_args (ParseInt : String → Option Int) (fs fs1 : FlagSet) (n : FlagName) (v : String)
    (h : fs.Set ParseInt n v = some fs1) : fs1.args = fs.args := by
  rw [Set_eq ParseInt fs fs1 n v h]

theorem parseOne_consumes (ParseInt : String → Option Int) (fs fs1 : FlagSet)
    (h : parseOne ParseInt fs = .ok (true, fs1)) : fs1.args.length < fs.args.length := by
  unfold parseOne at h
  split at h
  · simp at h
  · rename_i s rest hargs
    rw [hargs]
    split at h
    · simp at h
    · simp at h
    · simp at h
    · rename_i name hasValue value hscan
      simp only at h
      split at h
      · split at h <;> simp at h
      · rename_i flag hformal
        split at h
        · split at h
          · split at h
            · simp at h
            · rename_i fs2 hset
              simp only [Except.ok.injEq, Prod.mk.injEq, true_and] at h
              rw [← h, Set_args ParseInt _ fs2 _ _ hset]
              simp
          · split at h
            · simp at h
            · rename_i fs2 hset
              simp only [Except.ok.injEq, Prod.mk.injEq, true_and] at h
              rw [← h, Set_args ParseInt _ fs2 _ _ hset]
              simp
        · split at h
          · split at h
            · simp at h
            · rename_i fs2 hset
              simp only [Except.ok.injEq, Prod.mk.injEq, true_and] at h
              rw [← h, Set_args ParseInt _ fs2 _ _ hset]
              simp
          · split at h
            · simp at h
            · rename_i fs2 hset
              simp only [Except.ok.injEq, Prod.mk.injEq, true_and] at h
              rw [← h, Set_args ParseInt _ fs2 _ _ hset]
              simp only [List.length_cons]
              omega
          · simp at h

theorem parseLoop_total (ParseInt : String → Option Int) :
    ∀ (fuel : Nat) (fs : FlagSet), fs.args.length < fuel →
      ∃ r, parseLoop ParseInt fuel fs = some r := by
  intro fuel
  induction fuel with
  | zero => intro fs h; omega
  | succ k ih =>
    intro fs h
    simp only [parseLoop]
    cases hp : parseOne ParseInt fs with
    | error e => exact ⟨_, rfl⟩
    | ok r =>
      obtain ⟨seen, fs1⟩ := r
      cases seen with
      | false => exact ⟨_, rfl⟩
      | true =>
        have := parseOne_consumes ParseInt fs fs1 hp
        exact ih fs1 (by omega)

theorem renderAll_length (flags : List FlagArg) : flags.length ≤ (renderAll flags).length := by
  induction flags with
  | nil => simp [renderAll]
  | cons a rest ih =>
    have : 1 ≤ a.render.length := by cases a <;> simp [FlagArg.render]
    simp only [renderAll, List.length_cons, List.length_append]
    omega

/-! ## argparse -/

theorem host_assign (l : ldapEnv) (v : String) :
    (if l.host ≠ v then { l with host := v } else l) = { l with host := v } := by
  by_cases h : l.host = v
  · cases l; simp_all
  · simp [h]

theorem port_assign (l : ldapEnv) (v : Int) :
    (if l.port ≠ v then { l with port := v } else l) = { l with port := v } := by
  by_cases h : l.port = v
  · cases l; simp_all
  · simp [h]

theorem base_assign (l : ldapEnv) (v : String) :
    (if l.base ≠ v then { l with base := v } else l) = { l with base := v } := by
  by_cases h : l.base = v
  · cases l; simp_all
  · simp [h]

theorem filter_assign (l : ldapEnv) (v : String) :
    (if l.filter ≠ v then { l with filter := v } else l) = { l with filter := v } := by
  by_cases h : l.filter = v
  · cases l; simp_all
  · simp [h]

theorem tls_assign (l : ldapEnv) (v : Bool) :
    (if l.tls ≠ v then { l with tls := v } else l) = { l with tls := v } := by
  by_cases h : l.tls = v
  · cases l; simp_all
  · simp [h]

theorem skip_assign (l : ldapEnv) (v : Bool) :
    (if l.skip ≠ v then { l with skip := v } else l) = { l with skip := v } := by
  by_cases h : l.skip = v
  · cases l; simp_all
  · simp [h]

theorem assign_eq (l : ldapEnv) (fs : FlagSet) :
    l.assign fs = { host := fs.h, port := fs.p, base := fs.b, filter := fs.f, tls := fs.t,
                    skip := fs.s, uid := l.uid } := by
  unfold ldapEnv.assign
  lift_lets
  intro l1 l2 l3 l4 l5 l6
  have h1 : l1 = { l with host := fs.h } := host_assign l fs.h
  have h2 : l2 = { l1 with port := fs.p } := port_assign l1 fs.p
  have h3 : l3 = { l2 with base := fs.b } := base_assign l2 fs.b
  have h4 : l4 = { l3 with filter := fs.f } := filter_assign l3 fs.f
  have h5 : l5 = { l4 with tls := fs.t } := tls_assign l4 fs.t
  have h6 : l6 = { l5 with skip := fs.s } := skip_assign l5 fs.s
  rw [h1] at h2
  rw [h2] at h3
  rw [h3] at h4
  rw [h4] at h5
  rw [h5] at h6
  rw [h6]

theorem argparse_of_Parse (ParseInt : String → Option Int) (osArgs : List String) (l : ldapEnv)
    (prog : String) (rest : List String) (fs1 : FlagSet)
    (h : l.flags.Parse ParseInt rest = some (.ok fs1)) :
    l.argparse ParseInt osArgs (prog :: rest) =
      match fs1.args with
      | [u] => .returned { host := fs1.h, port := fs1.p, base := fs1.b, filter := fs1.f,
                           tls := fs1.t, skip := fs1.s, uid := u } none
      | _ => .returned { host := fs1.h, port := fs1.p, base := fs1.b, filter := fs1.f,
                         tls := fs1.t, skip := fs1.s, uid := l.uid } (some "Specify username") := by
  simp only [ldapEnv.argparse, List.length_cons, Nat.add_one_ne_zero, if_false, h, assign_eq]

theorem Parse_wellFormed (ParseInt : String → Option Int) (c : ldapEnv) (flags : List FlagArg)
    (sep : Bool) (pos : List String) (hwf : allWellFormed ParseInt flags = true)
    (hso : setOff sep pos = true) :
    c.flags.Parse ParseInt (renderAll flags ++ ((if sep then ["--"] else []) ++ pos))
      = some (.ok
        { h := (overridden ParseInt c flags).host, p := (overridden ParseInt c flags).port,
          b := (overridden ParseInt c flags).base, f := (overridden ParseInt c flags).filter,
          t := (overridden ParseInt c flags).tls, s := (overridden ParseInt c flags).skip,
          args := pos }) := by
  have hwf1 : ∀ a ∈ flags, a.WellFormed ParseInt = true := by
    simpa [allWellFormed, List.all_eq_true] using hwf
  have hlen := renderAll_length flags
  unfold FlagSet.Parse
  rw [parseLoop_wellFormed ParseInt sep pos hso flags hwf1 _ _ rfl
    (by simp only [List.length_append]; omega)]
  rfl

theorem argparse_wellFormed (ParseInt : String → Option Int) (osArgs : List String)
    (c : ldapEnv) (prog : String) (flags : List FlagArg) (sep : Bool) (pos : List String)
    (hwf : allWellFormed ParseInt flags = true) (hso : setOff sep pos = true) :
    c.argparse ParseInt osArgs (commandLine prog flags sep pos) =
      match pos with
      | [u] => .returned { overridden ParseInt c flags with uid := u } none
      | _ => .returned (overridden ParseInt c flags) (some "Specify username") := by
  unfold commandLine
  rw [argparse_of_Parse ParseInt osArgs c prog _ _
    (Parse_wellFormed ParseInt c flags sep pos hwf hso)]
  rcases pos with _ | ⟨u, _ | ⟨v, tl⟩⟩ <;> rfl

theorem Parse_total (ParseInt : String → Option Int) (fs : FlagSet) (arguments : List String) :
    ∃ r, fs.Parse ParseInt arguments = some r :=
  parseLoop_total ParseInt _ _ (Nat.lt_succ_self _)

theorem argparse_ne_diverged (ParseInt : String → Option Int) (osArgs : List String)
    (l : ldapEnv) (args : List String) : l.argparse ParseInt osArgs args ≠ .diverged := by
  unfold ldapEnv.argparse
  simp only
  split
  · simp
  · rename_i prog rest heq
    obtain ⟨r, hr⟩ := Parse_total ParseInt l.flags rest
    rw [hr]
    rcases r with e | fs1
    · simp
    · simp only
      split <;> simp

theorem argparse_osArgs (ParseInt : String → Option Int) (osArgs : List String) (l : ldapEnv) :
    l.argparse ParseInt osArgs [] = l.argparse ParseInt [] osArgs := by
  cases osArgs <;> simp [ldapEnv.argparse]

/-- C1. On every well-formed command line (program name, well-formed flags, positional
arguments set off from the flags) and from every starting configuration, `argparse` returns
nil with `uid` set to the positional argument when exactly one positional argument remains,
and returns the error "Specify username" when zero or at least two remain. -/
theorem argparse_positional (ParseInt : String → Option Int) (osArgs : List String)
    (c : ldapEnv) (prog : String) (flags : List FlagArg) (sep : Bool) (pos : List String)
    (hwf : allWellFormed ParseInt flags = true) (hso : setOff sep pos = true) :
    (∀ u, pos = [u] →
      ∃ l, c.argparse ParseInt osArgs (commandLine prog flags sep pos) = .returned l none
        ∧ l.uid = u) ∧
    (pos.length ≠ 1 →
      ∃ l, c.argparse ParseInt osArgs (commandLine prog flags sep pos)
        = .returned l (some "Specify username")) := by
  rw [argparse_wellFormed ParseInt osArgs c prog flags sep pos hwf hso]
  constructor
  · intro u hu
    subst hu
    exact ⟨_, rfl, rfl⟩
  · intro hlen
    match pos, hlen with
    | [], _ => exact ⟨_, rfl⟩
    | [u], h => exact absurd rfl h
    | _ :: _ :: _, _ => exact ⟨_, rfl⟩

/-- C8. On every well-formed command line and from every starting configuration `c`, after
`argparse` each of `host`, `port`, `base`, `filter`, `tls`, `skip` holds the value given by
its own flag when that flag is written, and its value in `c` when it is not. -/
theorem argparse_fields (ParseInt : String → Option Int) (osArgs : List String)
    (c : ldapEnv) (prog : String) (flags : List FlagArg) (sep : Bool) (pos : List String)
    (hwf : allWellFormed ParseInt flags = true) (hso : setOff sep pos = true) :
    ∃ l err, c.argparse ParseInt osArgs (commandLine prog flags sep pos) = .returned l err ∧
      l.host = (given .host flags).getD c.host ∧
      l.port = ((given .port flags).bind ParseInt).getD c.port ∧
      l.base = (given .base flags).getD c.base ∧
      l.filter = (given .filter flags).getD c.filter ∧
      l.tls = ((given .tls flags).bind ParseBool).getD c.tls ∧
      l.skip = ((given .skip flags).bind ParseBool).getD c.skip := by
  rw [argparse_wellFormed ParseInt osArgs c prog flags sep pos hwf hso]
  match pos with
  | [] => exact ⟨_, _, rfl, rfl, rfl, rfl, rfl, rfl, rfl⟩
  | [u] => exact ⟨_, _, rfl, rfl, rfl, rfl, rfl, rfl, rfl⟩
  | _ :: _ :: _ => exact ⟨_, _, rfl, rfl, rfl, rfl, rfl, rfl, rfl⟩

/-- Witness of C1: `--host ldap.example.org -port=636 --tls alice`. -/
theorem argparse_positional_witness :
    allWellFormed portTable
        [.spaced true .host "ldap.example.org", .inline false .port "636", .bare true .tls]
      = true ∧
    setOff false ["alice"] = true ∧
    ((∀ u, ["alice"] = [u] →
      ∃ l, sampleEnv.argparse portTable [] (commandLine "openssh-ldap-pubkey"
          [.spaced true .host "ldap.example.org", .inline false .port "636", .bare true .tls]
          false ["alice"]) = .returned l none ∧ l.uid = u) ∧
    (["alice"].length ≠ 1 →
      ∃ l, sampleEnv.argparse portTable [] (commandLine "openssh-ldap-pubkey"
          [.spaced true .host "ldap.example.org", .inline false .port "636", .bare true .tls]
          false ["alice"]) = .returned l (some "Specify username"))) :=
  ⟨by decide, by decide,
    argparse_positional portTable [] sampleEnv "openssh-ldap-pubkey"
      [.spaced true .host "ldap.example.org", .inline false .port "636", .bare true .tls]
      false ["alice"] (by decide) (by decide)⟩

/-- Witness of C8: `-filter=(cn=%s) --skip=false -port 636 -- -bob`. -/
theorem argparse_fields_witness :
    allWellFormed portTable
        [.inline false .filter "(cn=%s)", .inline true .skip "false", .spaced false .port "636"]
      = true ∧
    setOff true ["-bob"] = true ∧
    ∃ l err, sampleEnv.argparse portTable [] (commandLine "openssh-ldap-pubkey"
          [.inline false .filter "(cn=%s)", .inline true .skip "false",
            .spaced false .port "636"] true ["-bob"]) = .returned l err ∧
      l.host = (given .host
          [.inline false .filter "(cn=%s)", .inline true .skip "false",
            .spaced false .port "636"]).getD sampleEnv.host ∧
      l.port = ((given .port
          [.inline false .filter "(cn=%s)", .inline true .skip "false",
            .spaced false .port "636"]).bind portTable).getD sampleEnv.port ∧
      l.base = (given .base
          [.inline false .filter "(cn=%s)", .inline true .skip "false",
            .spaced false .port "636"]).getD sampleEnv.base ∧
      l.filter = (given .filter
          [.inline false .filter "(cn=%s)", .inline true .skip "false",
            .spaced false .port "636"]).getD sampleEnv.filter ∧
      l.tls = ((given .tls
          [.inline false .filter "(cn=%s)", .inline true .skip "false",
            .spaced false .port "636"]).bind ParseBool).getD sampleEnv.tls ∧
      l.skip = ((given .skip
          [.inline false .filter "(cn=%s)", .inline true .skip "false",
            .spaced false .port "636"]).bind ParseBool).getD sampleEnv.skip :=
  ⟨by decide, by decide,
    argparse_fields portTable [] sampleEnv "openssh-ldap-pubkey"
      [.inline false .filter "(cn=%s)", .inline true .skip "false", .spaced false .port "636"]
      true ["-bob"] (by decide) (by decide)⟩

/-- C6, as the code has it. Whenever `argparse` returns nil, exactly one positional argument
remained after flag parsing and `uid` is that argument; nothing requires it to be non-empty. -/
theorem argparse_uid (ParseInt : String → Option Int) (osArgs : List String) (l : ldapEnv)
    (args : List String) (l1 : ldapEnv)
    (h : l.argparse ParseInt osArgs args = .returned l1 none) :
    ∃ prog rest fs1, (if args.length = 0 then osArgs else args) = prog :: rest ∧
      l.flags.Parse ParseInt rest = some (.ok fs1) ∧ fs1.args = [l1.uid] := by
  unfold ldapEnv.argparse at h
  simp only at h
  split at h
  · simp at h
  · rename_i prog rest heq
    refine ⟨prog, rest, ?_⟩
    split at h
    · simp at h
    · simp at h
    · rename_i fs1 hparse
      refine ⟨fs1, heq, hparse, ?_⟩
      split at h
      · rename_i u hu
        simp only [Outcome.returned.injEq, and_true] at h
        rw [hu, ← h]
      · simp at h

/-- Witness of C6 as the code has it: the command line with the single argument "". -/
theorem argparse_uid_witness :
    sampleEnv.argparse portTable [] ["openssh-ldap-pubkey", ""] = .returned sampleEnv none ∧
    ∃ prog rest fs1,
      (if ["openssh-ldap-pubkey", ""].length = 0 then [] else ["openssh-ldap-pubkey", ""])
        = prog :: rest ∧
      sampleEnv.flags.Parse portTable rest = some (.ok fs1) ∧ fs1.args = [sampleEnv.uid] :=
  ⟨by decide, argparse_uid portTable [] sampleEnv ["openssh-ldap-pubkey", ""] sampleEnv
    (by decide)⟩

/-- C6 fails as stated: with the single positional argument "" `argparse` returns nil and
leaves the empty string in `uid`. -/
theorem argparse_empty_uid :
    sampleEnv.argparse portTable [] ["openssh-ldap-pubkey", "--tls", ""] =
      .returned { host := "localhost", port := 389, base := "dc=example,dc=org",
                  filter := "(uid=%s)", tls := true, skip := false, uid := "" } none := by
  decide

/-! ## Output -/

theorem foldl_Println (vs : List String) :
    ∀ acc : String, vs.foldl Println acc = acc ++ keyLines vs := by
  induction vs with
  | nil => intro acc; simp [keyLines]
  | cons v rest ih =>
    intro acc
    simp only [List.foldl_cons, ih, keyLines, Println, String.append_assoc]

/-- C2. For one entry whose `sshPublicKey` attribute has the non-empty list of values `vs`,
`printPubkey` returns nil and writes exactly the values of `vs`, each followed by a newline,
in the order of `vs`. -/
theorem printPubkey_prints (e : Entry) (vs : List String)
    (hvs : e.GetAttributeValues "sshPublicKey" = vs) (hne : vs ≠ []) :
    printPubkey [e] = { stdout := keyLines vs, err := none } := by
  have hlen : ¬ vs.length = 0 := fun h => hne (List.length_eq_zero.mp h)
  simp only [printPubkey, hvs, hlen, if_false, foldl_Println]
  simp

/-- Witness of C2: the values "keyA", "keyB" give the output "keyA\nkeyB\n". -/
theorem printPubkey_prints_witness :
    (userEntry ["keyA", "keyB"]).GetAttributeValues "sshPublicKey" = ["keyA", "keyB"] ∧
    ["keyA", "keyB"] ≠ [] ∧
    keyLines ["keyA", "keyB"] = "keyA\nkeyB\n" ∧
    printPubkey [userEntry ["keyA", "keyB"]]
      = { stdout := keyLines ["keyA", "keyB"], err := none } :=
  ⟨by decide, by decide, by decide,
    printPubkey_prints (userEntry ["keyA", "keyB"]) ["keyA", "keyB"] (by decide) (by decide)⟩

/-- C3. A search result of zero entries, of two or more entries, or of one entry without any
`sshPublicKey` value makes `printPubkey` return an error and write nothing; and whenever
`printPubkey` returns an error, nothing was written. -/
theorem printPubkey_rejects (entries : List Entry) :
    ((entries.length ≠ 1 ∨ ∃ e, entries = [e] ∧ e.GetAttributeValues "sshPublicKey" = []) →
      (printPubkey entries).err ≠ none ∧ (printPubkey entries).stdout = "") ∧
    ((printPubkey entries).err ≠ none → (printPubkey entries).stdout = "") := by
  rcases entries with _ | ⟨e, _ | ⟨e2, tl⟩⟩
  · simp [printPubkey]
  · by_cases hv : (e.GetAttributeValues "sshPublicKey").length = 0
    · simp [printPubkey, hv]
    · have hv2 : e.GetAttributeValues "sshPublicKey" ≠ [] :=
        fun h => hv (by rw [h]; rfl)
      simp [printPubkey, hv, hv2]
  · simp [printPubkey]

/-- Witness of C3: no entry, two entries, and one entry without a key value. -/
theorem printPubkey_rejects_witness :
    ((printPubkey []).err ≠ none ∧ (printPubkey []).stdout = "") ∧
    ((printPubkey [userEntry ["keyA"], userEntry ["keyB"]]).err ≠ none ∧
      (printPubkey [userEntry ["keyA"], userEntry ["keyB"]]).stdout = "") ∧
    ((printPubkey [userEntry []]).err ≠ none ∧ (printPubkey [userEntry []]).stdout = "") :=
  ⟨(printPubkey_rejects []).1 (Or.inl (by decide)),
    (printPubkey_rejects [userEntry ["keyA"], userEntry ["keyB"]]).1 (Or.inl (by decide)),
    (printPubkey_rejects [userEntry []]).1 (Or.inr ⟨userEntry [], rfl, by decide⟩)⟩

/-- C7, as the code has it. For one entry, `printPubkey` returns nil exactly when the entry
has at least one `sshPublicKey` value, empty or not; an entry without any value is rejected
with an error and prints nothing. -/
theorem printPubkey_accepts_iff (e : Entry) :
    ((printPubkey [e]).err = none ↔ e.GetAttributeValues "sshPublicKey" ≠ []) ∧
    ((printPubkey [e]).err ≠ none → (printPubkey [e]).stdout = "") := by
  by_cases hv : (e.GetAttributeValues "sshPublicKey").length = 0
  · have hv2 : e.GetAttributeValues "sshPublicKey" = [] := List.length_eq_zero.mp hv
    simp [printPubkey, hv, hv2]
  · have hv2 : e.GetAttributeValues "sshPublicKey" ≠ [] :=
      fun h => hv (by rw [h]; rfl)
    simp [printPubkey, hv, hv2]

/-- Witness of C7 as the code has it: an entry without any key value. -/
theorem printPubkey_accepts_iff_witness :
    (printPubkey [userEntry []]).err ≠ none ∧ (printPubkey [userEntry []]).stdout = "" :=
  ⟨by decide, (printPubkey_accepts_iff (userEntry [])).2 (by decide)⟩

/-- C7 fails as stated: for the single value "" `printPubkey` returns nil and writes an
empty line. -/
theorem printPubkey_empty_value :
    printPubkey [userEntry [""]] = { stdout := "\n", err := none } := by
  decide

/-! ## Transport selection -/

theorem isAddr_eq (ParseIP : String → Option Addr16) (host : String) :
    isAddr ParseIP host = (ParseIP host).isSome := by
  unfold isAddr
  cases hp : ParseIP host with
  | none => simp [To4, To16]
  | some a =>
    obtain ⟨bs, hlen⟩ := a
    have h16 : To16 (some bs) ≠ none := by
      simp only [To16]
      split
      · simp [IPv4]
      · simp [hlen]
    simp [h16]

/-- C4. For every configuration, the TLS configuration built by `connectTLS` has
`InsecureSkipVerify` set exactly when `host` parses as a literal IP address or `skip` is
set. -/
theorem connectTLS_skipVerify (ParseIP : String → Option Addr16) (l : ldapEnv) :
    (l.connectTLS ParseIP).config.InsecureSkipVerify = true
      ↔ ((ParseIP l.host).isSome = true ∨ l.skip = true) := by
  unfold ldapEnv.connectTLS
  simp only [isAddr_eq]
  by_cases h : ((ParseIP l.host).isSome || l.skip) = true
  · simp only [h, if_true, true_iff]
    simpa [Bool.or_eq_true] using h
  · simp only [h, if_false]
    simp only [Bool.or_eq_true, not_or] at h
    simp [h.1, h.2]

/-- C5, the code at a host name with `tls` set and `skip` unset: the root CA set handed to
`ldap.DialTLS` is the new, empty pool, not the nil pointer that selects the system trust
store. -/
theorem connectTLS_rootCAs_empty :
    tlsEnv.tls = true ∧ tlsEnv.skip = false ∧ (noLiteral tlsEnv.host).isSome = false ∧
    (tlsEnv.connectTLS noLiteral).config
      = { RootCAs := some { certs := [] }, InsecureSkipVerify := false } ∧
    usesSystemTrust (tlsEnv.connectTLS noLiteral).config = false := by
  decide

/-! ## Search -/

theorem doPrintf_plain (other : List Char → Option (List Char) → List Char)
    (post : List Char) (h : '%' ∉ post) : doPrintf other post none = post := by
  induction post with
  | nil => simp [doPrintf, extraOperand]
  | cons c rest ih =>
    simp only [List.mem_cons, not_or] at h
    have hc : c ≠ '%' := fun e => h.1 e.symm
    cases rest with
    | nil => simp [doPrintf, hc, extraOperand]
    | cons d tl =>
      have := ih h.2
      simp [doPrintf, hc, this]

theorem doPrintf_verb_s (other : List Char → Option (List Char) → List Char)
    (pre a post : List Char) (hpre : '%' ∉ pre) (hpost : '%' ∉ post) :
    doPrintf other (pre ++ '%' :: 's' :: post) (some a) = pre ++ a ++ post := by
  induction pre with
  | nil => simp [doPrintf, doPrintf_plain other post hpost]
  | cons c rest ih =>
    simp only [List.mem_cons, not_or] at hpre
    have hc : c ≠ '%' := fun e => hpre.1 e.symm
    have h1 := ih hpre.2
    cases rest with
    | nil =>
      simp only [List.nil_append] at h1
      simp [doPrintf, hc, doPrintf_plain other post hpost]
    | cons d tl =>
      simp only [List.cons_append] at h1
      simp [doPrintf, hc, h1]

theorem Sprintf_verb_s (other : List Char → Option (List Char) → List Char)
    (pre post a : String) (hpre : '%' ∉ pre.data) (hpost : '%' ∉ post.data) :
    Sprintf other (pre ++ "%s" ++ post) a = pre ++ a ++ post := by
  unfold Sprintf
  have hd : (pre ++ "%s" ++ post).data = pre.data ++ '%' :: 's' :: post.data := by
    simp [String.data_append]
  rw [hd, doPrintf_verb_s other pre.data a.data post.data hpre hpost]
  apply String.ext
  simp [String.data_append]

/-- C9. For every configuration, the request built by `search` has base DN `base`, scope
whole subtree, alias dereferencing never, size limit 0, time limit 0, types-only false and
the attribute list `["sshPublicKey"]`, and it is the request the connection is asked to
search; when the filter template is text around one `%s`, the filter of the request is the
template with `%s` replaced by `uid` verbatim. -/
theorem search_request (other : List Char → Option (List Char) → List Char) (l : ldapEnv) :
    (l.searchRequest other).BaseDN = l.base ∧
    (l.searchRequest other).Scope = ScopeWholeSubtree ∧
    (l.searchRequest other).DerefAliases = NeverDerefAliases ∧
    (l.searchRequest other).SizeLimit = 0 ∧
    (l.searchRequest other).TimeLimit = 0 ∧
    (l.searchRequest other).TypesOnly = false ∧
    (l.searchRequest other).Attributes = ["sshPublicKey"] ∧
    (∀ Search : SearchRequest → Option SearchResult × Option String,
      l.search other Search =
        match Search (l.searchRequest other) with
        | (some sr, err) => .returned sr.Entries err
        | (none, _) => .panicked) ∧
    (∀ pre post : String, l.filter = pre ++ "%s" ++ post → '%' ∉ pre.data → '%' ∉ post.data →
      (l.searchRequest other).Filter = pre ++ l.uid ++ post) := by
  refine ⟨rfl, rfl, rfl, rfl, rfl, rfl, rfl, fun _ => rfl, ?_⟩
  intro pre post hf hpre hpost
  show Sprintf other l.filter l.uid = pre ++ l.uid ++ post
  rw [hf, Sprintf_verb_s other pre post l.uid hpre hpost]

/-- Witness of C9: the filter "(uid=%s)" and the user "alice" give "(uid=alice)". -/
theorem search_request_witness :
    tlsEnv.filter = "(uid=" ++ "%s" ++ ")" ∧ tlsEnv.uid = "alice" ∧
    (tlsEnv.searchRequest noDirective).Filter = "(uid=alice)" :=
  ⟨by decide, by decide,
    (search_request noDirective tlsEnv).2.2.2.2.2.2.2.2 "(uid=" ")" (by decide) (by decide)
      (by decide)⟩

/-- C10, the code at a failed search: when `c.Search` answers a nil result with an error,
`search` dereferences the nil result and panics; it does not return the error. -/
theorem search_nil_result_panics :
    (({ sampleEnv with uid := "x)" } : ldapEnv).searchRequest noDirective).Filter = "(uid=x))" ∧
    failingSearch (({ sampleEnv with uid := "x)" } : ldapEnv).searchRequest noDirective)
      = (none, some "ldap: finished compiling filter with extra at end: )") ∧
    ({ sampleEnv with uid := "x)" } : ldapEnv).search noDirective failingSearch = .panicked := by
  decide

end LdapPubkey
